import Mathlib

/-!
Verification of the declarative settings framework and ground-unit catalog of
the dcs_liberation repository.

Embedded source files:
- `game/settings/booleanoption.py` (`BooleanOption`, `boolean_option`)
- `qt_ui/windows/settings/QSettingsWindow.py` (`AutoSettingsLayout` and its
  per-variant widget constructors)
- `game/dcs/groundunittype.py` (`GroundUnitType.__setstate__`, `register`,
  `named`)

Parts of the repository referenced by these files but not available
(`optiondescription.py`, `choicesoption.py`, the `Settings` class, the
`FloatSpinSlider` widget) and the behaviour of external collaborators
(Qt widgets, Python's `textwrap`) are modelled from the specification, each
with a doc comment saying so.
-/

namespace DcsLiberation

/-- A Python value as stored in a settings field or a choice mapping.
Covers the types the settings subsystem persists (bool, int, str) plus
Python's `None` (`pynone`), which Qt's invalid `QVariant` converts to. -/
inductive Value where
  | bool : Bool → Value
  | int : Int → Value
  | str : String → Value
  | pynone : Value
deriving DecidableEq, Repr

/-- Python truthiness (`bool(v)`), as applied by `not` and by Qt's
`setChecked`. -/
def truthy : Value → Bool
  | .bool b => b
  | .int n => n != 0
  | .str s => s != ""
  | .pynone => false

/-- The `__dict__` of a Settings Instance: a total map from field name to
value (the binder only reads fields that exist; a missing field is a fatal
configuration error outside this model). -/
def SettingsDict : Type := String → Value

/-- `self.settings.__dict__[name] = value`: dynamic field write by name. -/
def setField (s : SettingsDict) (name : String) (v : Value) : SettingsDict :=
  fun k => if k = name then v else s k

/-- The base metadata of `OptionDescription` (from `optiondescription.py`,
whose fields are fixed by the positional construction
`BooleanOption(page, section, text, detail, invert)` in
`booleanoption.py`): page, section, label text, optional detail. -/
structure OptionData where
  page : String
  sectionName : String
  text : String
  detail : Option String
deriving DecidableEq, Repr

/-- The closed set of option-description variants dispatched over in
`AutoSettingsLayout.__init__`, plus `other` for any `OptionDescription`
subtype outside that set (the `else: raise TypeError` branch).
`BoundedFloatOption` bounds and divisor are numeric (floats in Python,
modelled as rationals since the binder never computes with them);
`BoundedIntOption` bounds are integers. -/
inductive OptionDescription where
  | boolean (base : OptionData) (invert : Bool)
  | choices (base : OptionData) (choiceList : List (String × Value))
  | boundedFloat (base : OptionData) (min max divisor : Rat)
  | boundedInt (base : OptionData) (min max : Int)
  | other (base : OptionData)
deriving DecidableEq, Repr

/-- The base data of any variant. -/
def OptionDescription.base : OptionDescription → OptionData
  | .boolean b _ => b
  | .choices b _ => b
  | .boundedFloat b _ _ _ => b
  | .boundedInt b _ _ => b
  | .other b => b

/-- Modelled from the spec: `ChoicesOption.text_for_value` (from the missing
`choicesoption.py`) — reverse lookup of the display text for a stored value;
first match in the choice mapping's iteration order. -/
def text_for_value (choiceList : List (String × Value)) (v : Value) :
    Option String :=
  (choiceList.find? (fun p => p.2 == v)).map Prod.fst

/-- The closure installed by `add_checkbox_for`:
`def on_toggle(value): if description.invert: value = not value;
self.settings.__dict__[name] = value`. -/
def on_toggle (invert : Bool) (name : String) (value : Bool)
    (settings : SettingsDict) : SettingsDict :=
  let value := if invert then !value else value
  setField settings name (Value.bool value)

/-- Qt's `itemData(index)` on the combobox built by `add_combobox_for`: the
per-item hidden data, an invalid variant (Python `None`) out of range. -/
def itemData (items : List (String × Value)) (index : Nat) : Value :=
  ((items.get? index).map Prod.snd).getD Value.pynone

/-- The closure installed by `add_combobox_for`:
`def on_changed(index): self.settings.__dict__[name] = combobox.itemData(index)`. -/
def combobox_on_changed (items : List (String × Value)) (name : String)
    (index : Nat) (settings : SettingsDict) : SettingsDict :=
  setField settings name (itemData items index)

/-- The closure installed by `add_float_spin_slider_for`:
`def on_changed(): self.settings.__dict__[name] = spinner.value`.
Per the spec the slider's `value` is the raw integer-units value
(displayed value = raw / divisor, scale already applied by the control). -/
def float_spin_slider_on_changed (name : String) (spinnerValue : Int)
    (settings : SettingsDict) : SettingsDict :=
  setField settings name (Value.int spinnerValue)

/-- The closure installed by `add_spinner_for`:
`def on_changed(value): self.settings.__dict__[name] = value`. -/
def spinner_on_changed (name : String) (value : Int)
    (settings : SettingsDict) : SettingsDict :=
  setField settings name (Value.int value)

/-- Modelled from the spec: the state of a `FloatSpinSlider` (from the
missing `spinsliders.py`) as constructed by `add_float_spin_slider_for`:
bounds, divisor and the initial stored value. -/
structure FloatSpinSliderState where
  min : Rat
  max : Rat
  initial : Value
  divisor : Rat

/-- A value-editing control as built by `AutoSettingsLayout`, carrying its
initial state and the write-back callback wired to it. -/
inductive Control where
  | checkbox (initiallyChecked : Bool)
      (onToggle : Bool → SettingsDict → SettingsDict)
  | combobox (items : List (String × Value)) (initialText : Option String)
      (onChanged : Nat → SettingsDict → SettingsDict)
  | floatSpinSlider (slider : FloatSpinSliderState)
      (onChanged : Int → SettingsDict → SettingsDict)
  | spinner (min max : Int) (initialValue : Value)
      (onChanged : Int → SettingsDict → SettingsDict)

/-- `AutoSettingsLayout.add_checkbox_for`: initial checked state is the
stored value, inverted when `description.invert`; `on_toggle` is connected
to `toggled`. -/
def add_checkbox_for (settings : SettingsDict) (name : String)
    (invert : Bool) : Control :=
  let value := truthy (settings name)
  let value := if invert then !value else value
  .checkbox value (fun v s => on_toggle invert name v s)

/-- `AutoSettingsLayout.add_combobox_for`: one item per `(text, value)` of
`description.choices` in iteration order, each carrying `value` as item
data; current text set to `text_for_value` of the stored value;
`on_changed` connected to `currentIndexChanged`. -/
def add_combobox_for (settings : SettingsDict) (name : String)
    (choiceList : List (String × Value)) : Control :=
  .combobox choiceList (text_for_value choiceList (settings name))
    (fun i s => combobox_on_changed choiceList name i s)

/-- `AutoSettingsLayout.add_float_spin_slider_for`: a `FloatSpinSlider`
over `[min, max]` with the stored value and `description.divisor`;
`on_changed` connected to the spinner's `valueChanged`. -/
def add_float_spin_slider_for (settings : SettingsDict) (name : String)
    (min max divisor : Rat) : Control :=
  .floatSpinSlider ⟨min, max, settings name, divisor⟩
    (fun v s => float_spin_slider_on_changed name v s)

/-- `AutoSettingsLayout.add_spinner_for`: a `QSpinBox` with
`setMinimum(description.min)`, `setMaximum(description.max)`, value set to
the stored value; `on_changed` connected to `valueChanged`. -/
def add_spinner_for (settings : SettingsDict) (name : String)
    (min max : Int) : Control :=
  .spinner min max (settings name) (fun v s => spinner_on_changed name v s)

/-- The per-field dispatch in `AutoSettingsLayout.__init__`: select the
widget constructor by `isinstance` over the closed variant set, or
`raise TypeError(f"Unhandled option type: {description}")`. -/
def dispatchControl (settings : SettingsDict) (name : String) :
    OptionDescription → Except String Control
  | .boolean _ invert => .ok (add_checkbox_for settings name invert)
  | .choices _ choiceList => .ok (add_combobox_for settings name choiceList)
  | .boundedFloat _ mn mx dv =>
      .ok (add_float_spin_slider_for settings name mn mx dv)
  | .boundedInt _ mn mx => .ok (add_spinner_for settings name mn mx)
  | .other _ => .error "Unhandled option type"

/-- The loop of `AutoSettingsLayout.__init__` over
`Settings.fields(page, section)` (the field list is a parameter because the
`Settings` class is not among the sources): build one `(name, control)` row
per `(name, description)` pair in declaration order, raising on the first
unhandled description. -/
def autoSettingsLayout (settings : SettingsDict) :
    List (String × OptionDescription) →
    Except String (List (String × Control))
  | [] => .ok []
  | (name, d) :: rest =>
    match dispatchControl settings name d with
    | .error e => .error e
    | .ok c =>
      match autoSettingsLayout settings rest with
      | .error e => .error e
      | .ok rows => .ok ((name, c) :: rows)

/-- True exactly on the closed variant set handled by the dispatch in
`AutoSettingsLayout.__init__` (every subtype except the unhandled ones). -/
def supportedDescription : OptionDescription → Bool
  | .other _ => false
  | _ => true

/-- What the claimed dispatch contract demands of the control bound for a
given description: the control variant selected by the most-derived type,
its initial state read from the Settings Instance, and its write-back
callback writing into the field named `name`. -/
def boundControlSpec (settings : SettingsDict) (name : String) :
    OptionDescription → Control → Prop
  | .boolean _ invert, .checkbox init cb =>
      init = (if invert then !(truthy (settings name))
              else truthy (settings name)) ∧
      ∀ v s, cb v s = setField s name (Value.bool (if invert then !v else v))
  | .choices _ choiceList, .combobox items initText cb =>
      items = choiceList ∧
      initText = text_for_value choiceList (settings name) ∧
      ∀ i s, cb i s = setField s name (itemData choiceList i)
  | .boundedFloat _ mn mx dv, .floatSpinSlider slider cb =>
      slider = ⟨mn, mx, settings name, dv⟩ ∧
      ∀ v s, cb v s = setField s name (Value.int v)
  | .boundedInt _ mn mx, .spinner mn2 mx2 init cb =>
      mn2 = mn ∧ mx2 = mx ∧ init = settings name ∧
      ∀ v s, cb v s = setField s name (Value.int v)
  | _, _ => False

/-- Modelled from the spec / Qt: `findText` on a combobox returns the index
of the first item whose display text equals `t`, if any. -/
def findText (items : List (String × Value)) (t : String) : Option Nat :=
  match items with
  | [] => none
  | p :: rest => if p.1 = t then some 0 else (findText rest t).map (· + 1)

/-- Modelled from the spec / Qt: selecting the item with display text `t`
(via `setCurrentText` or a user selection) moves the combobox to the first
item with that text and fires `currentIndexChanged` with its index, running
the connected `on_changed`; with no matching item nothing happens. -/
def selectText (items : List (String × Value)) (name : String) (t : String)
    (s : SettingsDict) : SettingsDict :=
  match findText items t with
  | some i => combobox_on_changed items name i s
  | none => s

/-- Modelled from the spec / Qt: clicking a checkbox flips its checked
state and fires `toggled` with the new state, running the connected
`on_toggle`. The state is the pair (checked, settings). -/
def clickCheckbox (invert : Bool) (name : String)
    (state : Bool × SettingsDict) : Bool × SettingsDict :=
  (!state.1, on_toggle invert name (!state.1) state.2)

/-- Modelled from the spec / Qt: a `QSpinBox` whose range was set with
`setMinimum(min)` and `setMaximum(max)` clamps every underlying-value
change into `[min, max]` before `valueChanged` delivers it (the spec:
violating writes are clamped by the host widget before reaching the
Settings Instance). -/
def spinBoxClamp (min max v : Int) : Int :=
  if v < min then min else if v > max then max else v

/-- Splitting a character list into whitespace-separated words (part of the
`textwrap` model below); `acc` holds the reversed word under construction. -/
def splitWordsAux : List Char → List Char → List (List Char)
  | [], acc => if acc = [] then [] else [acc.reverse]
  | c :: cs, acc =>
      if c.isWhitespace then
        if acc = [] then splitWordsAux cs []
        else acc.reverse :: splitWordsAux cs []
      else splitWordsAux cs (c :: acc)

/-- The whitespace-separated words of a character list. -/
def splitWords (l : List Char) : List (List Char) :=
  splitWordsAux l []

/-- Breaking a long word into pieces of at most `w` characters (for
`w ≥ 1`; part of the `textwrap` model below, matching
`break_long_words=True`). The fuel is the length of the list; every step
consumes at least one character. -/
def chunksOfFuel (w : Nat) : Nat → List Char → List (List Char)
  | _, [] => []
  | 0, l => [l]
  | fuel + 1, c :: cs =>
      (c :: cs.take (w - 1)) :: chunksOfFuel w fuel (cs.drop (w - 1))

/-- Pieces of at most `w` characters (for `w ≥ 1`). -/
def chunksOf (w : Nat) (l : List Char) : List (List Char) :=
  chunksOfFuel w l.length l

/-- Greedy line filling (part of the `textwrap` model below): `cur` is the
line under construction; a word joins it when the joined length still fits
in `w`, otherwise the line is emitted and the word starts a new line. -/
def wrapGreedy (w : Nat) : List String → String → List String
  | [], cur => [cur]
  | word :: rest, cur =>
      if cur.length + 1 + word.length ≤ w then
        wrapGreedy w rest (cur ++ " " ++ word)
      else
        cur :: wrapGreedy w rest word

/-- The words handed to the greedy filler: split on whitespace, then break
any word longer than the width into pieces of at most `w` characters. -/
def wrapWords (w : Nat) (s : String) : List String :=
  (splitWords s.data).flatMap
    (fun word => (chunksOf w word).map (fun l => (⟨l⟩ : String)))

/-- Modelled from the spec / the Python standard library:
`textwrap.wrap(s, width=w)` — split on whitespace, break words longer than
the width (Python fills the current line before breaking; this model breaks
at width boundaries, which preserves the line-length bound), then fill
lines greedily so that every output line has at most `w` characters. -/
def wrap (w : Nat) (s : String) : List String :=
  match wrapWords w s with
  | [] => []
  | word :: rest => wrapGreedy w rest word

/-- `AutoSettingsLayout.add_label`: the label text is `description.text`;
when `description.detail` is present, the detail is wrapped at width 55,
joined with `<br />`, and appended in a `<strong>` block. -/
def add_label (description : OptionData) : String :=
  let text := description.text
  match description.detail with
  | none => text
  | some d =>
      let wrapped := String.intercalate "<br />" (wrap 55 d)
      text ++ "<br /><strong>" ++ wrapped ++ "</strong>"

/-- Modelled from the spec: `SETTING_DESCRIPTION_KEY` (defined in
`optiondescription.py`, not among the sources) — the metadata key under
which a declaration function attaches the option description to its
dataclass field. Only its identity as a key matters. -/
def SETTING_DESCRIPTION_KEY : String := "setting_description"

/-- `dataclasses.field(metadata=..., default=...)` as returned by
`boolean_option`: a field specification carrying the declared default value
and the out-of-band metadata mapping. -/
structure FieldSpec where
  metadata : List (String × OptionDescription)
  default : Value
deriving DecidableEq, Repr

/-- `boolean_option` from `game/settings/booleanoption.py`: returns
`field(metadata={SETTING_DESCRIPTION_KEY:
BooleanOption(page, section, text, detail, invert)}, default=default)`. -/
def boolean_option (text page sectionName : String) (default : Bool)
    (invert : Bool := false) (detail : Option String := none) : FieldSpec :=
  { metadata := [(SETTING_DESCRIPTION_KEY,
      OptionDescription.boolean ⟨page, sectionName, text, detail⟩ invert)]
    default := Value.bool default }

/-- Modelled from the spec: loading a persisted Settings Instance (the
`Settings` class is not among the sources) — instantiate fresh defaults,
then overlay the persisted value of every field present in both the save
and the schema. `defaults` is the schema as declared (field, default)
pairs in declaration order; `persisted` is the old save as a flat
field-to-value mapping. -/
def loadSettings (defaults persisted : List (String × Value)) :
    List (String × Value) :=
  defaults.map fun p =>
    match persisted.lookup p.1 with
    | some v => (p.1, v)
    | none => p

/-- The `__dict__` of a Python object in `groundunittype.py`: a partial map
from attribute name to value. -/
def PyDict : Type := String → Option Value

/-- Python `d.update(e)`: every entry of `e` overwrites or is added to `d`;
keys only in `d` are preserved. -/
def dictUpdate (d e : PyDict) : PyDict :=
  fun k => (e k).orElse (fun _ => d k)

/-- A `GroundUnitType`, reduced to its `variant_id` and its `__dict__`
(the catalog data loaded from the unit yaml; the individual dataclass
fields are entries of the dict). -/
structure GroundUnitType where
  variant_id : String
  dict : PyDict

/-- The `_by_name` class variable of `GroundUnitType`: registered variants
by variant id. (`register` also appends to `_by_unit_type`, which
`__setstate__` never consults and is not modelled.) -/
def UnitRegistry : Type := String → Option GroundUnitType

/-- `GroundUnitType.register`: `cls._by_name[unit_type.variant_id] =
unit_type`. -/
def register (byName : UnitRegistry) (unit_type : GroundUnitType) :
    UnitRegistry :=
  fun k => if k = unit_type.variant_id then some unit_type else byName k

/-- `GroundUnitType.named(name)`: look the variant up in `_by_name`
(the lazy `_load_all` that fills the registry beforehand is outside the
model; an unregistered name raises `KeyError`, here `none`). -/
def named (byName : UnitRegistry) (name : String) : Option GroundUnitType :=
  byName name

/-- `GroundUnitType.__setstate__(state)`: fetch the currently registered
variant for the saved `variant_id`, run `state.update(updated.__dict__)` so
every field of the registered variant overwrites the saved value, then run
`self.__dict__.update(state)`. `none` models the `KeyError` raised when the
saved `variant_id` is absent or unregistered. -/
def setstate (byName : UnitRegistry) (selfDict state : PyDict) :
    Option PyDict :=
  match state "variant_id" with
  | some (Value.str vid) =>
      match named byName vid with
      | some updated => some (dictUpdate selfDict (dictUpdate state updated.dict))
      | none => none
  | _ => none

/-! Theorems. -/

/-- C2: for every `BooleanOption` field the checkbox built by
`add_checkbox_for` starts in state `invert ? not stored : stored`; a click
(which toggles the checkbox and fires `on_toggle`) writes the inversion
transform of the new state, so the first click on the freshly bound
checkbox stores `not b` and a second click restores the original stored
value `b`. In particular with `default = false` and `invert = true`
(instantiated in the witness) the fresh instance stores `false`, the
checkbox starts checked, and unchecking it writes `true`. -/
theorem c2_boolean_invert_roundtrip (s : SettingsDict) (name : String)
    (invert b : Bool) (h : s name = Value.bool b) :
    add_checkbox_for s name invert =
      .checkbox (if invert then !b else b)
        (fun v s2 => on_toggle invert name v s2) ∧
    (clickCheckbox invert name ((if invert then !b else b), s)).2 name
      = Value.bool (!b) ∧
    (clickCheckbox invert name
        (clickCheckbox invert name ((if invert then !b else b), s))).2 name
      = Value.bool b := by
  refine ⟨?_, ?_, ?_⟩ <;>
    cases invert <;>
      simp [add_checkbox_for, clickCheckbox, on_toggle, setField, truthy, h]

/-- C2 witness: the spec scenario — field `hide_x` declared with
`default = false`, `invert = true`; the fresh instance stores `false`, the
bound checkbox is initially checked, and unchecking it writes `true`. -/
theorem c2_boolean_invert_roundtrip_witness :
    (fun _ => Value.bool false : SettingsDict) "hide_x"
      = Value.bool false ∧
    add_checkbox_for (fun _ => Value.bool false) "hide_x" true =
      .checkbox true (fun v s2 => on_toggle true "hide_x" v s2) ∧
    (clickCheckbox true "hide_x"
        (true, fun _ => Value.bool false)).2 "hide_x"
      = Value.bool true := by
  have h := c2_boolean_invert_roundtrip (fun _ => Value.bool false) "hide_x"
    true false rfl
  exact ⟨rfl, by simpa using h.1, by simpa using h.2.1⟩

/-- C4: the spinner built by `add_spinner_for` is constrained to
`[min, max]`; the widget clamps every control-originated underlying value
into that range before `valueChanged` delivers it, so each value the
write-back callback stores lies within `[min, max]`, and the Settings
Instance field holds exactly that in-range value after the write. -/
theorem c4_spinner_range (s : SettingsDict) (name : String)
    (mn mx raw : Int) (h : mn ≤ mx) :
    add_spinner_for s name mn mx =
      .spinner mn mx (s name) (fun v s2 => spinner_on_changed name v s2) ∧
    mn ≤ spinBoxClamp mn mx raw ∧ spinBoxClamp mn mx raw ≤ mx ∧
    spinner_on_changed name (spinBoxClamp mn mx raw) s name
      = Value.int (spinBoxClamp mn mx raw) := by
  refine ⟨rfl, ?_, ?_, ?_⟩
  · unfold spinBoxClamp; split <;> [omega; (split <;> omega)]
  · unfold spinBoxClamp; split <;> [omega; (split <;> omega)]
  · simp [spinner_on_changed, setField]

/-- C4 witness: a spinner over `[1, 5]`; an attempted write of `99` is
clamped and the field receives the in-range value. -/
theorem c4_spinner_range_witness :
    (1 : Int) ≤ 5 ∧
    (add_spinner_for (fun _ => Value.int 3) "n" 1 5 =
      .spinner 1 5 ((fun _ => Value.int 3 : SettingsDict) "n")
        (fun v s2 => spinner_on_changed "n" v s2) ∧
    (1 : Int) ≤ spinBoxClamp 1 5 99 ∧ spinBoxClamp 1 5 99 ≤ 5 ∧
    spinner_on_changed "n" (spinBoxClamp 1 5 99) (fun _ => Value.int 3) "n"
      = Value.int (spinBoxClamp 1 5 99)) :=
  ⟨by decide, c4_spinner_range (fun _ => Value.int 3) "n" 1 5 99 (by decide)⟩

/-- C7: every write-back callback installed by the binder (`on_toggle` for
Boolean, `on_changed` for Choices, BoundedFloat and BoundedInt) writes the
Settings Instance field named `name` by dynamic name lookup, with no
transformation beyond the documented one, and leaves every other field `k`
unchanged. -/
theorem c7_writeback_frame (name k : String) (hne : k ≠ name)
    (s : SettingsDict) :
    (∀ invert v, on_toggle invert name v s k = s k ∧
        on_toggle invert name v s name
          = Value.bool (if invert then !v else v)) ∧
    (∀ items i, combobox_on_changed items name i s k = s k ∧
        combobox_on_changed items name i s name = itemData items i) ∧
    (∀ v, float_spin_slider_on_changed name v s k = s k ∧
        float_spin_slider_on_changed name v s name = Value.int v) ∧
    (∀ v, spinner_on_changed name v s k = s k ∧
        spinner_on_changed name v s name = Value.int v) := by
  refine ⟨fun invert v => ⟨?_, ?_⟩, fun items i => ⟨?_, ?_⟩,
    fun v => ⟨?_, ?_⟩, fun v => ⟨?_, ?_⟩⟩ <;>
    simp [on_toggle, combobox_on_changed, float_spin_slider_on_changed,
      spinner_on_changed, setField, hne]

/-- C7 witness: a checkbox toggle on field `a` leaves field `b` unchanged
and writes only `a`. -/
theorem c7_writeback_frame_witness :
    "b" ≠ "a" ∧
    (∀ invert v, on_toggle invert "a" v (fun _ => Value.pynone) "b"
        = (fun _ => Value.pynone : SettingsDict) "b" ∧
      on_toggle invert "a" v (fun _ => Value.pynone) "a"
        = Value.bool (if invert then !v else v)) :=
  ⟨by decide,
    (c7_writeback_frame "a" "b" (by decide) (fun _ => Value.pynone)).1⟩

/-- C8: `boolean_option(text, page, section, default, invert, detail)`
returns a field specification whose default is the given default value and
whose metadata carries
`BooleanOption(page, section, text, detail, invert)` under
`SETTING_DESCRIPTION_KEY`. -/
theorem c8_boolean_option_field_spec (text page sectionName : String)
    (default invert : Bool) (detail : Option String) :
    (boolean_option text page sectionName default invert detail).default
      = Value.bool default ∧
    (boolean_option text page sectionName default invert
        detail).metadata.lookup SETTING_DESCRIPTION_KEY
      = some (OptionDescription.boolean ⟨page, sectionName, text, detail⟩
          invert) := by
  exact ⟨rfl, by simp [boolean_option, List.lookup]⟩

/-- C10: deserializing a pickled `GroundUnitType` through `__setstate__`,
with a variant of the saved `variant_id` registered, overwrites every field
defined by the registered variant with the current catalog data, and
preserves saved keys the registered variant does not define. -/
theorem c10_setstate_refresh (byName : UnitRegistry) (u : GroundUnitType)
    (selfDict state : PyDict)
    (hvid : state "variant_id" = some (Value.str u.variant_id)) :
    ∃ d, setstate (register byName u) selfDict state = some d ∧
      (∀ k v, u.dict k = some v → d k = some v) ∧
      (∀ k v, u.dict k = none → state k = some v → d k = some v) := by
  refine ⟨dictUpdate selfDict (dictUpdate state u.dict), ?_, ?_, ?_⟩
  · simp [setstate, hvid, named, register]
  · intro k v hk
    simp [dictUpdate, hk, Option.orElse]
  · intro k v hk hs
    simp [dictUpdate, hk, hs, Option.orElse]

/-- C10 witness: a saved `T-80` state with a stale `price` and a `legacy`
key; after loading, `price` comes from the registered catalog entry and
`legacy` is preserved. -/
theorem c10_setstate_refresh_witness :
    (fun k => if k = "variant_id" then some (Value.str "T-80")
      else if k = "price" then some (Value.int 5)
      else if k = "legacy" then some (Value.str "x")
      else none : PyDict) "variant_id"
        = some (Value.str "T-80") ∧
    ∃ d, setstate
        (register (fun _ => none)
          ⟨"T-80", fun k => if k = "price" then some (Value.int 10)
            else none⟩)
        (fun _ => none)
        (fun k => if k = "variant_id" then some (Value.str "T-80")
          else if k = "price" then some (Value.int 5)
          else if k = "legacy" then some (Value.str "x")
          else none) = some d ∧
      (∀ k v,
        (⟨"T-80", fun k => if k = "price" then some (Value.int 10)
          else none⟩ : GroundUnitType).dict k = some v → d k = some v) ∧
      (∀ k v,
        (⟨"T-80", fun k => if k = "price" then some (Value.int 10)
          else none⟩ : GroundUnitType).dict k = none →
        (fun k => if k = "variant_id" then some (Value.str "T-80")
          else if k = "price" then some (Value.int 5)
          else if k = "legacy" then some (Value.str "x")
          else none : PyDict) k = some v → d k = some v) :=
  ⟨by decide,
    c10_setstate_refresh (fun _ => none)
      ⟨"T-80", fun k => if k = "price" then some (Value.int 10) else none⟩
      (fun _ => none) _ (by decide)⟩

/-- A control delivered by `dispatchControl` satisfies the claimed
dispatch contract for its description. -/
theorem dispatchControl_ok_spec (s : SettingsDict) (name : String)
    (d : OptionDescription) (c : Control)
    (h : dispatchControl s name d = .ok c) : boundControlSpec s name d c := by
  cases d with
  | boolean base invert =>
      cases h
      refine ⟨rfl, fun v s2 => ?_⟩
      simp [on_toggle]
  | choices base choiceList =>
      cases h
      exact ⟨rfl, rfl, fun i s2 => rfl⟩
  | boundedFloat base mn mx dv =>
      cases h
      exact ⟨rfl, fun v s2 => rfl⟩
  | boundedInt base mn mx =>
      cases h
      exact ⟨rfl, rfl, rfl, fun v s2 => rfl⟩
  | other base => cases h

/-- C1: for every `(name, description)` pair of the field list, in
declaration order, a successful `AutoSettingsLayout` binds at the same
position a control selected by the most-derived description type over the
closed variant set (Boolean checkbox, Choices combobox, BoundedFloat
spin-slider, BoundedInt spinner), with its initial state read from the
Settings Instance and its write-back wired to the field named `name`. -/
theorem c1_dispatch_by_type (s : SettingsDict)
    (fieldList : List (String × OptionDescription))
    (rows : List (String × Control)) (i : Nat) (name : String)
    (d : OptionDescription)
    (hrows : autoSettingsLayout s fieldList = .ok rows)
    (hget : fieldList.get? i = some (name, d)) :
    ∃ c, rows.get? i = some (name, c) ∧ boundControlSpec s name d c := by
  induction fieldList generalizing i rows with
  | nil => simp at hget
  | cons p rest ih =>
      obtain ⟨n0, d0⟩ := p
      cases hd : dispatchControl s n0 d0 with
      | error e => simp [autoSettingsLayout, hd] at hrows
      | ok c0 =>
          cases hr : autoSettingsLayout s rest with
          | error e =>
              simp [autoSettingsLayout, hd, hr] at hrows
          | ok rest2 =>
              have hrows2 : rows = (n0, c0) :: rest2 := by
                have := hrows
                simp [autoSettingsLayout, hd, hr] at this
                exact this.symm
              subst hrows2
              cases i with
              | zero =>
                  simp only [List.get?] at hget
                  simp only [Option.some.injEq, Prod.mk.injEq] at hget
                  obtain ⟨rfl, rfl⟩ := hget
                  exact ⟨c0, rfl, dispatchControl_ok_spec s n0 d0 c0 hd⟩
              | succ j =>
                  simp only [List.get?] at hget ⊢
                  exact ih rest2 j hr hget

/-- C1 witness: a two-field section (a Boolean and a BoundedInt); the
second row carries a spinner bound to its field name. -/
theorem c1_dispatch_by_type_witness :
    ∃ rows,
      autoSettingsLayout (fun _ => Value.bool true)
        [("flag", OptionDescription.boolean ⟨"p", "q", "t", none⟩ false),
         ("count", OptionDescription.boundedInt ⟨"p", "q", "u", none⟩ 0 9)]
        = .ok rows ∧
      ∃ c, rows.get? 1 = some ("count", c) ∧
        boundControlSpec (fun _ => Value.bool true) "count"
          (OptionDescription.boundedInt ⟨"p", "q", "u", none⟩ 0 9) c := by
  have h := c1_dispatch_by_type (fun _ => Value.bool true)
    [("flag", OptionDescription.boolean ⟨"p", "q", "t", none⟩ false),
     ("count", OptionDescription.boundedInt ⟨"p", "q", "u", none⟩ 0 9)]
    [("flag", add_checkbox_for (fun _ => Value.bool true) "flag" false),
     ("count", add_spinner_for (fun _ => Value.bool true) "count" 0 9)]
    1 "count" (OptionDescription.boundedInt ⟨"p", "q", "u", none⟩ 0 9)
    rfl rfl
  exact ⟨_, rfl, h⟩

/-- C5: `dispatchControl` succeeds exactly on the closed variant set
(Boolean, Choices, BoundedFloat, BoundedInt) and raises
(`TypeError("Unhandled option type: ...")`, modelled as the error result)
on any other description; a layout whose fields are all supported binds
without raising, and one containing an unsupported description fails
fatally at bind time. -/
theorem c5_unhandled_variant (s : SettingsDict) (name : String)
    (fieldList : List (String × OptionDescription)) :
    (∀ d, supportedDescription d = false →
        dispatchControl s name d = .error "Unhandled option type") ∧
    (∀ d, supportedDescription d = true →
        ∃ c, dispatchControl s name d = .ok c) ∧
    ((∀ p ∈ fieldList, supportedDescription p.2 = true) →
        ∃ rows, autoSettingsLayout s fieldList = .ok rows) ∧
    ((∃ p ∈ fieldList, supportedDescription p.2 = false) →
        ∃ msg, autoSettingsLayout s fieldList = .error msg) := by
  have herr : ∀ (s2 : SettingsDict) (nm : String) (d),
      supportedDescription d = false →
      dispatchControl s2 nm d = .error "Unhandled option type" := by
    intro s2 nm d h
    cases d with
    | other base => rfl
    | boolean base invert => simp [supportedDescription] at h
    | choices base choiceList => simp [supportedDescription] at h
    | boundedFloat base mn mx dv => simp [supportedDescription] at h
    | boundedInt base mn mx => simp [supportedDescription] at h
  have hok : ∀ (s2 : SettingsDict) (nm : String) (d),
      supportedDescription d = true →
      ∃ c, dispatchControl s2 nm d = .ok c := by
    intro s2 nm d h
    cases d with
    | other base => simp [supportedDescription] at h
    | boolean base invert => exact ⟨_, rfl⟩
    | choices base choiceList => exact ⟨_, rfl⟩
    | boundedFloat base mn mx dv => exact ⟨_, rfl⟩
    | boundedInt base mn mx => exact ⟨_, rfl⟩
  refine ⟨herr s name, hok s name, ?_, ?_⟩
  · intro hall
    induction fieldList with
    | nil => exact ⟨[], rfl⟩
    | cons p rest ih =>
        obtain ⟨n0, d0⟩ := p
        obtain ⟨c0, hc0⟩ := hok s n0 d0 (hall _ (.head _))
        obtain ⟨rest2, hr⟩ := ih (fun q hq => hall q (.tail _ hq))
        exact ⟨(n0, c0) :: rest2, by simp [autoSettingsLayout, hc0, hr]⟩
  · intro hex
    induction fieldList with
    | nil => simp at hex
    | cons p rest ih =>
        obtain ⟨n0, d0⟩ := p
        by_cases hd0 : supportedDescription d0 = true
        · obtain ⟨c0, hc0⟩ := hok s n0 d0 hd0
          have hex2 : ∃ p ∈ rest, supportedDescription p.2 = false := by
            rcases hex with ⟨q, hq, hqf⟩
            rcases List.mem_cons.mp hq with rfl | hq2
            · rw [hd0] at hqf; cases hqf
            · exact ⟨q, hq2, hqf⟩
          obtain ⟨msg, hmsg⟩ := ih hex2
          exact ⟨msg, by simp [autoSettingsLayout, hc0, hmsg]⟩
        · have hd0f : supportedDescription d0 = false :=
            Bool.eq_false_iff.mpr hd0
          exact ⟨"Unhandled option type",
            by simp [autoSettingsLayout, herr s n0 d0 hd0f]⟩

/-- C5 witness: binding a section containing an `OptionDescription` outside
the closed set fails with the unhandled-type error, while the Boolean
description in the same section dispatches successfully on its own. -/
theorem c5_unhandled_variant_witness :
    supportedDescription (OptionDescription.other ⟨"p", "q", "t", none⟩)
      = false ∧
    dispatchControl (fun _ => Value.pynone) "f"
      (OptionDescription.other ⟨"p", "q", "t", none⟩)
        = .error "Unhandled option type" ∧
    (∃ c, dispatchControl (fun _ => Value.pynone) "f"
      (OptionDescription.boolean ⟨"p", "q", "t", none⟩ false) = .ok c) ∧
    (∃ msg, autoSettingsLayout (fun _ => Value.pynone)
      [("f", OptionDescription.other ⟨"p", "q", "t", none⟩)]
        = .error msg) := by
  have h := c5_unhandled_variant (fun _ => Value.pynone) "f"
    [("f", OptionDescription.other ⟨"p", "q", "t", none⟩)]
  exact ⟨rfl, h.1 _ rfl, h.2.1 _ rfl,
    h.2.2.2 ⟨("f", OptionDescription.other ⟨"p", "q", "t", none⟩),
      List.mem_singleton.mpr rfl, rfl⟩⟩

/-- The keys of a loaded Settings Instance are exactly the schema keys, in
schema order. -/
theorem loadSettings_map_fst (defaults persisted : List (String × Value)) :
    (loadSettings defaults persisted).map Prod.fst
      = defaults.map Prod.fst := by
  induction defaults with
  | nil => rfl
  | cons p rest ih =>
      obtain ⟨k, dv⟩ := p
      cases hp : persisted.lookup k <;> simp [loadSettings, hp] <;>
        simpa [loadSettings] using ih

/-- Looking a field up in a loaded Settings Instance: persisted value when
the field is in both save and schema, declared default when only in the
schema, nothing when not in the schema. -/
theorem lookup_loadSettings (defaults persisted : List (String × Value))
    (f : String) :
    (loadSettings defaults persisted).lookup f =
      match defaults.lookup f with
      | none => none
      | some dv =>
        match persisted.lookup f with
        | some pv => some pv
        | none => some dv := by
  induction defaults with
  | nil => simp [loadSettings, List.lookup]
  | cons p rest ih =>
      obtain ⟨k, dv0⟩ := p
      by_cases hk : f = k
      · subst hk
        cases hp : persisted.lookup f <;>
          simp [loadSettings, List.lookup, hp]
      · have hbeq : (f == k) = false := beq_eq_false_iff_ne.mpr hk
        cases hp : persisted.lookup k <;>
          simpa [loadSettings, List.lookup, hp, hbeq] using ih

/-- C6: loading a persisted Settings Instance is a forward-compatible
merge — the loaded instance carries exactly the schema fields (in schema
declaration order); a field in both save and schema keeps its saved value;
a field only in the schema (added after the save) gets its declared
default; a field only in the old save is dropped silently. -/
theorem c6_load_forward_merge (defaults persisted : List (String × Value))
    (f : String) :
    (loadSettings defaults persisted).map Prod.fst
      = defaults.map Prod.fst ∧
    (defaults.lookup f = none →
        (loadSettings defaults persisted).lookup f = none) ∧
    (∀ dv, defaults.lookup f = some dv → persisted.lookup f = none →
        (loadSettings defaults persisted).lookup f = some dv) ∧
    (∀ dv pv, defaults.lookup f = some dv → persisted.lookup f = some pv →
        (loadSettings defaults persisted).lookup f = some pv) := by
  refine ⟨loadSettings_map_fst defaults persisted, ?_, ?_, ?_⟩
  · intro h; rw [lookup_loadSettings]; simp [h]
  · intro dv h1 h2; rw [lookup_loadSettings]; simp [h1, h2]
  · intro dv pv h1 h2; rw [lookup_loadSettings]; simp [h1, h2]

/-- C6 witness: the spec scenario — an old save without
`new_feature_flag` and with a removed field; after the merge the saved
field keeps its saved value, the new field gets its default, and the
removed field is gone. -/
theorem c6_load_forward_merge_witness :
    (loadSettings [("a", Value.int 1), ("new_feature_flag", Value.bool false)]
        [("a", Value.int 5), ("removed", Value.int 9)]).map Prod.fst
      = [("a", Value.int 1),
          ("new_feature_flag", Value.bool false)].map Prod.fst ∧
    (loadSettings [("a", Value.int 1), ("new_feature_flag", Value.bool false)]
        [("a", Value.int 5), ("removed", Value.int 9)]).lookup "a"
      = some (Value.int 5) ∧
    (loadSettings [("a", Value.int 1), ("new_feature_flag", Value.bool false)]
        [("a", Value.int 5), ("removed", Value.int 9)]).lookup
          "new_feature_flag"
      = some (Value.bool false) ∧
    (loadSettings [("a", Value.int 1), ("new_feature_flag", Value.bool false)]
        [("a", Value.int 5), ("removed", Value.int 9)]).lookup "removed"
      = none :=
  ⟨(c6_load_forward_merge [("a", Value.int 1),
      ("new_feature_flag", Value.bool false)]
      [("a", Value.int 5), ("removed", Value.int 9)] "a").1,
   (c6_load_forward_merge [("a", Value.int 1),
      ("new_feature_flag", Value.bool false)]
      [("a", Value.int 5), ("removed", Value.int 9)] "a").2.2.2
      (Value.int 1) (Value.int 5) (by decide) (by decide),
   (c6_load_forward_merge [("a", Value.int 1),
      ("new_feature_flag", Value.bool false)]
      [("a", Value.int 5), ("removed", Value.int 9)]
      "new_feature_flag").2.2.1 (Value.bool false) (by decide) (by decide),
   (c6_load_forward_merge [("a", Value.int 1),
      ("new_feature_flag", Value.bool false)]
      [("a", Value.int 5), ("removed", Value.int 9)] "removed").2.1
      (by decide)⟩

/-- With pairwise-distinct display texts (Python dict keys), `findText`
finds the index of the unique pair whose text is `t`. -/
theorem findText_mem_nodup (items : List (String × Value)) (t : String)
    (v : Value) (hnd : (items.map Prod.fst).Nodup)
    (hmem : (t, v) ∈ items) :
    ∃ j, findText items t = some j ∧ items.get? j = some (t, v) := by
  induction items with
  | nil => cases hmem
  | cons p rest ih =>
      obtain ⟨t0, v0⟩ := p
      simp only [List.map_cons, List.nodup_cons] at hnd
      obtain ⟨hnotin, hnd2⟩ := hnd
      by_cases ht : t0 = t
      · subst ht
        rcases List.mem_cons.mp hmem with heq | hmem2
        · have hv : v = v0 := (Prod.ext_iff.mp heq).2
          subst hv
          exact ⟨0, by simp [findText], rfl⟩
        · exact absurd (List.mem_map_of_mem Prod.fst hmem2) hnotin
      · have hmem2 : (t, v) ∈ rest := by
          rcases List.mem_cons.mp hmem with heq | h2
          · exact absurd (Prod.ext_iff.mp heq).1.symm ht
          · exact h2
        obtain ⟨j, hj, hg⟩ := ih hnd2 hmem2
        exact ⟨j + 1, by simp [findText, ht, hj], by simpa using hg⟩

/-- Selecting the display text of a choice pair writes that pair's
underlying value into the field. -/
theorem selectText_writes (items : List (String × Value))
    (name t : String) (v : Value) (s : SettingsDict)
    (hnd : (items.map Prod.fst).Nodup) (hmem : (t, v) ∈ items) :
    selectText items name t s = setField s name v := by
  obtain ⟨j, hj, hg⟩ := findText_mem_nodup items t v hnd hmem
  simp only [List.get?_eq_getElem?] at hg
  simp [selectText, hj, combobox_on_changed, itemData, hg]

/-- C3: the combobox is populated with one item per choice entry in
iteration order carrying the underlying value, its initial selection is
`text_for_value` of the stored value, selecting a choice text writes that
choice's value, and reselecting the text returned by `text_for_value`
yields the same value again. -/
theorem c3_choices_roundtrip (s : SettingsDict) (name : String)
    (choiceList : List (String × Value)) (t : String) (v : Value)
    (hnd : (choiceList.map Prod.fst).Nodup) (hmem : (t, v) ∈ choiceList) :
    add_combobox_for s name choiceList =
      .combobox choiceList (text_for_value choiceList (s name))
        (fun i s2 => combobox_on_changed choiceList name i s2) ∧
    (selectText choiceList name t s) name = v ∧
    ∃ t2, text_for_value choiceList v = some t2 ∧
      (selectText choiceList name t2 s) name = v := by
  refine ⟨rfl, ?_, ?_⟩
  · rw [selectText_writes choiceList name t v s hnd hmem]
    simp [setField]
  · cases hfv : choiceList.find? (fun p => p.2 == v) with
    | none =>
        exfalso
        have := List.find?_eq_none.mp hfv (t, v) hmem
        simp at this
    | some p2 =>
        obtain ⟨t2, v2⟩ := p2
        have hv2 : v2 = v := by
          have := List.find?_some hfv
          simpa using this
        subst hv2
        have hmem2 : (t2, v2) ∈ choiceList := List.mem_of_find?_eq_some hfv
        refine ⟨t2, by simp [text_for_value, hfv], ?_⟩
        rw [selectText_writes choiceList name t2 v2 s hnd hmem2]
        simp [setField]

/-- C3 witness: a two-choice option; selecting `Warm` stores its value,
and the reverse lookup of that value selects back to it. -/
theorem c3_choices_roundtrip_witness :
    (([("Cold", Value.str "cold"), ("Warm", Value.str "warm")] :
        List (String × Value)).map Prod.fst).Nodup ∧
    ("Warm", Value.str "warm")
      ∈ ([("Cold", Value.str "cold"), ("Warm", Value.str "warm")] :
          List (String × Value)) ∧
    ((selectText [("Cold", Value.str "cold"), ("Warm", Value.str "warm")]
        "start" "Warm" (fun _ => Value.str "cold")) "start"
      = Value.str "warm" ∧
    ∃ t2, text_for_value
        [("Cold", Value.str "cold"), ("Warm", Value.str "warm")]
        (Value.str "warm") = some t2 ∧
      (selectText [("Cold", Value.str "cold"), ("Warm", Value.str "warm")]
        "start" t2 (fun _ => Value.str "cold")) "start"
        = Value.str "warm") := by
  have h := c3_choices_roundtrip (fun _ => Value.str "cold") "start"
    [("Cold", Value.str "cold"), ("Warm", Value.str "warm")]
    "Warm" (Value.str "warm") (by decide) (by decide)
  exact ⟨by decide, by decide, h.2.1, h.2.2⟩

/-- Every chunk produced with enough fuel has at most `w` characters. -/
theorem chunksOfFuel_length_le (w : Nat) (hw : 1 ≤ w) :
    ∀ (fuel : Nat) (l : List Char), l.length ≤ fuel →
      ∀ c ∈ chunksOfFuel w fuel l, c.length ≤ w := by
  intro fuel
  induction fuel with
  | zero =>
      intro l hl c hc
      have : l = [] := List.eq_nil_of_length_eq_zero (Nat.le_zero.mp hl)
      subst this
      simp [chunksOfFuel] at hc
  | succ n ihn =>
      intro l hl c hc
      cases l with
      | nil => simp [chunksOfFuel] at hc
      | cons ch cs =>
          rw [chunksOfFuel] at hc
          rcases List.mem_cons.mp hc with rfl | hc2
          · simp only [List.length_cons, List.length_take]
            omega
          · apply ihn (cs.drop (w - 1)) ?_ c hc2
            simp only [List.length_drop]
            simp only [List.length_cons] at hl
            omega

/-- Every chunk of a word has at most `w` characters. -/
theorem chunksOf_length_le (w : Nat) (hw : 1 ≤ w) (l : List Char) :
    ∀ c ∈ chunksOf w l, c.length ≤ w :=
  chunksOfFuel_length_le w hw l.length l le_rfl

/-- Every word handed to the greedy filler has at most `w` characters. -/
theorem wrapWords_length_le (w : Nat) (hw : 1 ≤ w) (s : String) :
    ∀ t ∈ wrapWords w s, t.length ≤ w := by
  intro t ht
  simp only [wrapWords, List.mem_flatMap, List.mem_map] at ht
  obtain ⟨word, -, l, hl, rfl⟩ := ht
  exact chunksOf_length_le w hw word l hl

/-- Greedy filling from a line of at most `w` characters, over words of at
most `w` characters, yields only lines of at most `w` characters. -/
theorem wrapGreedy_length_le (w : Nat) :
    ∀ (words : List String) (cur : String), cur.length ≤ w →
      (∀ word ∈ words, word.length ≤ w) →
      ∀ line ∈ wrapGreedy w words cur, line.length ≤ w := by
  intro words
  induction words with
  | nil =>
      intro cur hcur _ line hline
      rw [wrapGreedy] at hline
      rcases List.mem_singleton.mp hline with rfl
      exact hcur
  | cons word rest ih =>
      intro cur hcur hwords line hline
      rw [wrapGreedy] at hline
      by_cases hfit : cur.length + 1 + word.length ≤ w
      · rw [if_pos hfit] at hline
        apply ih (cur ++ " " ++ word) ?_ (fun x hx => hwords x (.tail _ hx))
          line hline
        simp only [String.length_append]
        have : (" " : String).length = 1 := rfl
        omega
      · rw [if_neg hfit] at hline
        rcases List.mem_cons.mp hline with rfl | h2
        · exact hcur
        · exact ih word (hwords word (.head _))
            (fun x hx => hwords x (.tail _ hx)) line h2

/-- Every line of `wrap w s` has at most `w` characters (for `w ≥ 1`). -/
theorem wrap_length_le (w : Nat) (hw : 1 ≤ w) (s : String) :
    ∀ line ∈ wrap w s, line.length ≤ w := by
  intro line hline
  rw [wrap] at hline
  cases hws : wrapWords w s with
  | nil => rw [hws] at hline; cases hline
  | cons word rest =>
      rw [hws] at hline
      refine wrapGreedy_length_le w rest word ?_ ?_ line hline
      · exact wrapWords_length_le w hw s word (hws ▸ List.mem_cons_self ..)
      · intro x hx
        exact wrapWords_length_le w hw s x (hws ▸ List.mem_cons.mpr (.inr hx))

/-- C9: the label built by `add_label` equals the description text when
`detail` is absent; when `detail` is present the label is the text
followed by the detail wrapped into lines of at most 55 characters,
appended as a `<strong>` block joined with `<br />`. -/
theorem c9_label_wrap (description : OptionData) :
    (description.detail = none →
        add_label description = description.text) ∧
    (∀ d, description.detail = some d →
        add_label description =
          description.text ++ "<br /><strong>" ++
            String.intercalate "<br />" (wrap 55 d) ++ "</strong>" ∧
        ∀ line ∈ wrap 55 d, line.length ≤ 55) := by
  obtain ⟨p, sec, t, det⟩ := description
  refine ⟨?_, ?_⟩
  · intro h
    simp only at h
    subst h
    rfl
  · intro d hd
    simp only at hd
    subst hd
    exact ⟨rfl, wrap_length_le 55 (by omega) d⟩

/-- C9 witness: a label with a short detail; the label carries the wrapped
detail block and the single wrapped line is within 55 characters. -/
theorem c9_label_wrap_witness :
    (⟨"p", "s", "T", some "alpha beta gamma"⟩ : OptionData).detail
      = some "alpha beta gamma" ∧
    add_label ⟨"p", "s", "T", some "alpha beta gamma"⟩
      = "T" ++ "<br /><strong>" ++
          String.intercalate "<br />" (wrap 55 "alpha beta gamma") ++
          "</strong>" ∧
    "alpha beta gamma".length ≤ 55 := by
  have h := (c9_label_wrap ⟨"p", "s", "T", some "alpha beta gamma"⟩).2
    "alpha beta gamma" rfl
  exact ⟨rfl, h.1, h.2 "alpha beta gamma" (by decide)⟩

end DcsLiberation
